import Mathlib

/-!
Shallow embedding of the B+tree node codec and tree handle from `BTree.go`
of the scratch-db repository.

Modelling conventions:
* a byte buffer (`[]byte`) is a `List Nat` of byte values;
* machine integers (`uint16`, `uint64`) are `Nat` with explicit `% 2 ^ w`
  wherever Go arithmetic can wrap;
* a Go fault (failed `assert`, out-of-range slice index) is `Option.none`;
* `binary.LittleEndian.Uint16/Uint64/PutUint16/PutUint64` are modelled by
  `readLE` / `writeBytes` over little-endian byte lists (`leBytes`/`leVal`).
-/

namespace Scratch

/-- Constant `BNODE_NODE = 1` (internal nodes without values). -/
def BNODE_NODE : Nat := 1

/-- Constant `BNODE_LEAF = 2` (leaf nodes with values). -/
def BNODE_LEAF : Nat := 2

/-- Constant `HEADER = 4`, the header size in bytes. -/
def HEADER : Nat := 4

/-- Constant `BTREE_PAGE_SIZE = 4096`. -/
def BTREE_PAGE_SIZE : Nat := 4096

/-- Constant `BTREE_MAX_KEY_SIZE = 1000`. -/
def BTREE_MAX_KEY_SIZE : Nat := 1000

/-- Constant `BTREE_MAX_VAL_SIZE = 3000`. -/
def BTREE_MAX_VAL_SIZE : Nat := 3000

/-- The `w` little-endian bytes of the value `v` (least significant first),
as written by `binary.LittleEndian.PutUint16/PutUint64`. -/
def leBytes : Nat → Nat → List Nat
  | 0, _ => []
  | w + 1, v => v % 256 :: leBytes w (v / 256)

/-- Little-endian decoding of a byte list: byte `i` contributes `b * 256 ^ i`,
as read by `binary.LittleEndian.Uint16/Uint64`. -/
def leVal : List Nat → Nat
  | [] => 0
  | b :: bs => b + 256 * leVal bs

/-- Read the `w`-byte little-endian value stored at byte position `pos`.
`none` models the Go panic when the slice `data[pos:]` is shorter than `w`. -/
def readLE (w : Nat) (data : List Nat) (pos : Nat) : Option Nat :=
  if pos + w ≤ data.length then some (leVal ((data.drop pos).take w)) else none

/-- Write the bytes `bs` at position `pos` of `data`.
`none` models the Go panic when the write does not fit in the buffer. -/
def writeBytes (data : List Nat) (pos : Nat) (bs : List Nat) : Option (List Nat) :=
  if pos + bs.length ≤ data.length then
    some (data.take pos ++ bs ++ data.drop (pos + bs.length))
  else none

/-- The subslice `data[start:][:cnt]`; `none` models the Go panic when the
slice bounds exceed the buffer. -/
def sliceFrom (data : List Nat) (start cnt : Nat) : Option (List Nat) :=
  if start + cnt ≤ data.length then some ((data.drop start).take cnt) else none

/-- `BNode` wraps the page byte buffer, as in `type BNode struct { data []byte }`. -/
structure BNode where
  data : List Nat
deriving DecidableEq

/-- `func (node BNode) btype() uint16`: the first two bytes, little-endian. -/
def BNode.btype (node : BNode) : Option Nat :=
  readLE 2 node.data 0

/-- `func (node BNode) nkeys() uint16`: bytes 2..3, little-endian. -/
def BNode.nkeys (node : BNode) : Option Nat :=
  readLE 2 node.data 2

/-- `func (node BNode) setHeader(btype uint16, nkeys uint16)`. -/
def BNode.setHeader (node : BNode) (btype nkeys : Nat) : Option BNode := do
  let d1 ← writeBytes node.data 0 (leBytes 2 btype)
  let d2 ← writeBytes d1 2 (leBytes 2 nkeys)
  pure ⟨d2⟩

/-- `func (node BNode) getPtr(idx uint16) uint64`, with the
`assert(idx < node.nkeys())` modelled as `none` on failure; the position
`HEADER + 8*idx` is `uint16` arithmetic, hence the `% 65536`. -/
def BNode.getPtr (node : BNode) (idx : Nat) : Option Nat := do
  let n ← node.nkeys
  if idx < n then readLE 8 node.data ((HEADER + 8 * idx) % 65536) else none

/-- `func (node BNode) setPtr(idx uint16, val uint64)`. -/
def BNode.setPtr (node : BNode) (idx val : Nat) : Option BNode := do
  let n ← node.nkeys
  if idx < n then do
    let d ← writeBytes node.data ((HEADER + 8 * idx) % 65536) (leBytes 8 val)
    pure ⟨d⟩
  else none

/-- `func offsetPos(node BNode, idx uint16) uint16`, with the assertion
`1 <= idx && idx <= node.nkeys()`. -/
def offsetPos (node : BNode) (idx : Nat) : Option Nat := do
  let n ← node.nkeys
  if 1 ≤ idx ∧ idx ≤ n then pure ((HEADER + 8 * n + 2 * (idx - 1)) % 65536)
  else none

/-- `func (node BNode) getOffset(idx uint16) uint16`: 0 for `idx = 0`,
otherwise the stored little-endian 16-bit value at `offsetPos`. -/
def BNode.getOffset (node : BNode) (idx : Nat) : Option Nat :=
  if idx = 0 then some 0
  else do
    let p ← offsetPos node idx
    readLE 2 node.data p

/-- `func (node BNode) kvPos(idx uint16) uint16`, with the assertion
`idx <= node.nkeys()`. -/
def BNode.kvPos (node : BNode) (idx : Nat) : Option Nat := do
  let n ← node.nkeys
  if idx ≤ n then do
    let off ← node.getOffset idx
    pure ((HEADER + 8 * n + 2 * n + off) % 65536)
  else none

/-- `func (node BNode) getKey(idx uint16) []byte`. -/
def BNode.getKey (node : BNode) (idx : Nat) : Option (List Nat) := do
  let n ← node.nkeys
  if idx < n then do
    let pos ← node.kvPos idx
    let klen ← readLE 2 node.data pos
    sliceFrom node.data ((pos + 4) % 65536) klen
  else none

/-- `func (node BNode) getVal(idx uint16) []byte`. -/
def BNode.getVal (node : BNode) (idx : Nat) : Option (List Nat) := do
  let n ← node.nkeys
  if idx < n then do
    let pos ← node.kvPos idx
    let klen ← readLE 2 node.data pos
    let vlen ← readLE 2 node.data ((pos + 2) % 65536)
    sliceFrom node.data ((pos + 4 + klen) % 65536) vlen
  else none

/-- `func (node BNode) nbytes() uint16`: `node.kvPos(node.nkeys())`. -/
def BNode.nbytes (node : BNode) : Option Nat := do
  let n ← node.nkeys
  node.kvPos n

/-- `type BTree struct`: a root page pointer plus the three page-lifecycle
callbacks `get`, `new`, `del`. -/
structure BTree where
  root : Nat
  get : Nat → BNode
  new : BNode → Nat
  del : Nat → Unit

/-- The components of a `BTree` value: root pointer and the three callbacks. -/
def BTree.toParts (t : BTree) : Nat × (Nat → BNode) × (BNode → Nat) × (Nat → Unit) :=
  (t.root, t.get, t.new, t.del)

/-- Rebuild a `BTree` from its four components. -/
def BTree.ofParts (p : Nat × (Nat → BNode) × (BNode → Nat) × (Nat → Unit)) : BTree :=
  ⟨p.1, p.2.1, p.2.2.1, p.2.2.2⟩

/-- A key-value entry: the pair of key bytes and value bytes. -/
abbrev Entry := List Nat × List Nat

/-- The encoded size of one key-value record:
`keyLen:2B, valLen:2B, keyBytes, valBytes`. -/
def recSize (e : Entry) : Nat := 4 + e.1.length + e.2.length

/-- The bytes of one packed key-value record, per the page format. -/
def recBytes (e : Entry) : List Nat :=
  leBytes 2 e.1.length ++ leBytes 2 e.2.length ++ e.1 ++ e.2

/-- The packed key-value region: all records in order. -/
def recsBytes (es : List Entry) : List Nat := (es.map recBytes).flatten

/-- `offUpTo es i`: the byte offset (relative to the start of the key-value
region) at which record `i` begins, i.e. the total size of records `0..i-1`. -/
def offUpTo : List Entry → Nat → Nat
  | _, 0 => 0
  | [], _ + 1 => 0
  | e :: es, i + 1 => recSize e + offUpTo es i

/-- The stored offset table (entries for records `1..n`), each a 16-bit
little-endian value, starting from accumulated offset `base`. -/
def offsBytesFrom (base : Nat) : List Entry → List Nat
  | [] => []
  | e :: es => leBytes 2 (base + recSize e) ++ offsBytesFrom (base + recSize e) es

/-- The child-pointer array: 8 little-endian bytes per pointer. -/
def ptrsBytes (ps : List Nat) : List Nat := (ps.map (leBytes 8)).flatten

/-- Store the pointers `ps` at consecutive indices starting at `i`,
each via the codec operation `setPtr`. -/
def setPtrs (node : BNode) : List Nat → Nat → Option BNode
  | [], _ => some node
  | p :: ps, i => do
    let node1 ← node.setPtr i p
    setPtrs node1 ps (i + 1)

/-- The full encoded node image per the page format: header, pointer array,
offset table, packed records. -/
def nodeBytes (t : Nat) (ps : List Nat) (es : List Entry) : List Nat :=
  leBytes 2 t ++ leBytes 2 es.length ++ ptrsBytes ps ++
    offsBytesFrom 0 es ++ recsBytes es

/-- A fresh page for the entries `es`: zero bytes in the header and
child-pointer region, then the offset table and the packed key-value records
laid out per the page format, then zero padding up to the page size. -/
def pageBuf (es : List Entry) : List Nat :=
  List.replicate (HEADER + 8 * es.length) 0 ++
    ((offsBytesFrom 0 es ++ recsBytes es) ++
      List.replicate (BTREE_PAGE_SIZE - (HEADER + 10 * es.length + offUpTo es es.length)) 0)

/-- Build a node via the codec: starting from a page whose offset table and
packed key-value records are laid out per the page format, write the type and
key count with `setHeader` and the child pointers with `setPtr`. -/
def buildNode (t : Nat) (ps : List Nat) (es : List Entry) : Option BNode := do
  let node1 ← BNode.setHeader ⟨pageBuf es⟩ t es.length
  setPtrs node1 ps 0

theorem length_leBytes (w v : Nat) : (leBytes w v).length = w := by
  induction w generalizing v with
  | zero => rfl
  | succ w ih => simp [leBytes, ih]

theorem leVal_leBytes (w v : Nat) : leVal (leBytes w v) = v % 256 ^ w := by
  induction w generalizing v with
  | zero => simp [leBytes, leVal, Nat.mod_one]
  | succ w ih =>
    rw [leBytes, leVal, ih, pow_succ, mul_comm (256 ^ w) 256, Nat.mod_mul]

theorem readLE_shift (w : Nat) (l1 l2 : List Nat) (k : Nat) :
    readLE w (l1 ++ l2) (l1.length + k) = readLE w l2 k := by
  unfold readLE
  rw [List.drop_append]
  by_cases h : k + w ≤ l2.length
  · rw [if_pos (by simp [List.length_append]; omega), if_pos h]
  · rw [if_neg (by simp [List.length_append]; omega), if_neg h]

theorem readLE_here (w v : Nat) (rest : List Nat) :
    readLE w (leBytes w v ++ rest) 0 = some (v % 256 ^ w) := by
  have hlen : (leBytes w v).length = w := length_leBytes w v
  unfold readLE
  rw [if_pos (by simp [List.length_append, hlen]), List.drop_zero,
    List.take_left' hlen, leVal_leBytes]

theorem readLE_mid (w v : Nat) (l1 rest : List Nat) :
    readLE w (l1 ++ leBytes w v ++ rest) l1.length = some (v % 256 ^ w) := by
  have h := readLE_shift w l1 (leBytes w v ++ rest) 0
  rw [Nat.add_zero] at h
  rw [List.append_assoc, h, readLE_here]

theorem readLE_front (w : Nat) (l1 l2 : List Nat) (pos : Nat)
    (h : pos + w ≤ l1.length) :
    readLE w (l1 ++ l2) pos = readLE w l1 pos := by
  unfold readLE
  rw [if_pos h, if_pos (by simp [List.length_append]; omega),
    List.drop_append_of_le_length (by omega),
    List.take_append_of_le_length (by simp [List.length_drop]; omega)]

theorem readLE_of_drop (w : Nat) (data : List Nat) (pos v : Nat) (tail : List Nat)
    (hw : 0 < w) (h : data.drop pos = leBytes w v ++ tail) :
    readLE w data pos = some (v % 256 ^ w) := by
  have h1 : (data.drop pos).length = data.length - pos := List.length_drop pos data
  rw [h] at h1
  simp only [List.length_append, length_leBytes] at h1
  unfold readLE
  rw [if_pos (by omega), h, List.take_left' (length_leBytes w v), leVal_leBytes]

theorem writeBytes_split (pre mid post bs : List Nat) (h : bs.length = mid.length) :
    writeBytes (pre ++ mid ++ post) pre.length bs = some (pre ++ bs ++ post) := by
  have h1 : pre.length + bs.length ≤ (pre ++ mid ++ post).length := by
    simp [List.length_append]; omega
  have h2 : (pre ++ mid ++ post).take pre.length = pre := by
    rw [List.append_assoc]
    exact List.take_left pre (mid ++ post)
  have h3 : (pre ++ mid ++ post).drop (pre.length + bs.length) = post := by
    rw [h]
    exact List.drop_left' (by simp [List.length_append])
  unfold writeBytes
  rw [if_pos h1, h2, h3]

theorem setHeader_eq (d : List Nat) (t n : Nat) (h : 4 ≤ d.length) :
    BNode.setHeader ⟨d⟩ t n = some ⟨leBytes 2 t ++ leBytes 2 n ++ d.drop 4⟩ := by
  have ht : (leBytes 2 t).length = 2 := length_leBytes 2 t
  have hn : (leBytes 2 n).length = 2 := length_leBytes 2 n
  have hw1 : writeBytes d 0 (leBytes 2 t) = some (leBytes 2 t ++ d.drop 2) := by
    unfold writeBytes
    rw [if_pos (by omega)]
    simp [ht]
  have hmid : ((d.drop 2).take 2).length = 2 := by
    rw [List.length_take, List.length_drop]; omega
  have hw2 : writeBytes (leBytes 2 t ++ d.drop 2) 2 (leBytes 2 n) =
      some (leBytes 2 t ++ leBytes 2 n ++ (d.drop 2).drop 2) := by
    have hs := writeBytes_split (leBytes 2 t) ((d.drop 2).take 2) ((d.drop 2).drop 2)
      (leBytes 2 n) (by rw [hn, hmid])
    rw [ht, List.append_assoc, List.take_append_drop] at hs
    exact hs
  have hdd : (d.drop 2).drop 2 = d.drop 4 := by
    rw [List.drop_drop]
  rw [hdd] at hw2
  simp [BNode.setHeader, hw1, hw2]

theorem nkeys_hdr (t n : Nat) (rest : List Nat) :
    BNode.nkeys ⟨leBytes 2 t ++ leBytes 2 n ++ rest⟩ = some (n % 65536) := by
  have h := readLE_mid 2 n (leBytes 2 t) rest
  rw [length_leBytes] at h
  show readLE 2 _ 2 = _
  rw [h]
  norm_num

theorem readLE_at (w v pos : Nat) (pre rest : List Nat) (hp : pre.length = pos) :
    readLE w (pre ++ (leBytes w v ++ rest)) pos = some (v % 256 ^ w) := by
  subst hp
  rw [← List.append_assoc]
  exact readLE_mid w v pre rest

theorem writeBytes_at (pre mid post bs : List Nat) (pos : Nat)
    (hp : pre.length = pos) (h : bs.length = mid.length) :
    writeBytes (pre ++ (mid ++ post)) pos bs = some (pre ++ (bs ++ post)) := by
  subst hp
  have hs := writeBytes_split pre mid post bs h
  rw [List.append_assoc] at hs
  rw [List.append_assoc] at hs
  exact hs

theorem nkeys_hdr2 (t n : Nat) (rest : List Nat) :
    BNode.nkeys ⟨leBytes 2 t ++ (leBytes 2 n ++ rest)⟩ = some (n % 65536) := by
  rw [← List.append_assoc]
  exact nkeys_hdr t n rest

theorem btype_hdr (t : Nat) (rest : List Nat) :
    BNode.btype ⟨leBytes 2 t ++ rest⟩ = some (t % 65536) := by
  show readLE 2 _ 0 = _
  rw [readLE_here]
  norm_num

theorem length_ptrsBytes (ps : List Nat) : (ptrsBytes ps).length = 8 * ps.length := by
  induction ps with
  | nil => rfl
  | cons p ps ih =>
    simp [ptrsBytes, length_leBytes] at ih ⊢
    omega

theorem length_offsBytesFrom (es : List Entry) :
    ∀ base, (offsBytesFrom base es).length = 2 * es.length := by
  induction es with
  | nil => intro base; rfl
  | cons e es ih =>
    intro base
    simp [offsBytesFrom, length_leBytes, ih]
    omega

theorem length_recBytes (e : Entry) : (recBytes e).length = recSize e := by
  simp [recBytes, recSize, length_leBytes]
  omega

theorem length_recsBytes (es : List Entry) :
    (recsBytes es).length = offUpTo es es.length := by
  induction es with
  | nil => rfl
  | cons e es ih =>
    simp [recsBytes, offUpTo, List.length_append, length_recBytes] at ih ⊢
    omega

theorem ptrsBytes_cons (p : Nat) (ps : List Nat) :
    ptrsBytes (p :: ps) = leBytes 8 p ++ ptrsBytes ps := by
  simp [ptrsBytes]

theorem recsBytes_cons (e : Entry) (es : List Entry) :
    recsBytes (e :: es) = recBytes e ++ recsBytes es := by
  simp [recsBytes]

theorem setPtr_at (t n idx v : Nat) (mid post : List Nat)
    (hn : n < 65536) (hidx : idx < n)
    (hmid : mid.length = 8 * idx)
    (hsm : HEADER + 8 * n ≤ 65536) :
    BNode.setPtr ⟨leBytes 2 t ++ (leBytes 2 n ++ (mid ++ (List.replicate 8 0 ++ post)))⟩ idx v =
      some ⟨leBytes 2 t ++ (leBytes 2 n ++ (mid ++ (leBytes 8 v ++ post)))⟩ := by
  unfold BNode.setPtr
  rw [nkeys_hdr2, Nat.mod_eq_of_lt hn]
  have hm : (HEADER + 8 * idx) % 65536 = HEADER + 8 * idx :=
    Nat.mod_eq_of_lt (by unfold HEADER at hsm ⊢; omega)
  have hb : leBytes 2 t ++ (leBytes 2 n ++ (mid ++ (List.replicate 8 0 ++ post))) =
      (leBytes 2 t ++ (leBytes 2 n ++ mid)) ++ (List.replicate 8 0 ++ post) := by
    simp [List.append_assoc]
  have hw := writeBytes_at (leBytes 2 t ++ (leBytes 2 n ++ mid)) (List.replicate 8 0)
    post (leBytes 8 v) (HEADER + 8 * idx)
    (by simp [List.length_append, length_leBytes, hmid, HEADER]; omega)
    (by simp [length_leBytes, List.length_replicate])
  simp only [Option.pure_def, Option.bind_eq_bind, Option.some_bind]
  rw [if_pos hidx, hm, hb, hw]
  simp [List.append_assoc]

theorem setPtrs_eq (t n : Nat) (hn : n < 65536) (hsm : HEADER + 8 * n ≤ 65536) :
    ∀ (ps : List Nat) (start : Nat) (mid suf : List Nat),
    mid.length = 8 * start →
    start + ps.length ≤ n →
    setPtrs ⟨leBytes 2 t ++ (leBytes 2 n ++
        (mid ++ (List.replicate (8 * ps.length) 0 ++ suf)))⟩ ps start =
      some ⟨leBytes 2 t ++ (leBytes 2 n ++ (mid ++ (ptrsBytes ps ++ suf)))⟩ := by
  intro ps
  induction ps with
  | nil =>
    intro start mid suf h1 h2
    simp [setPtrs, ptrsBytes]
  | cons p ps ih =>
    intro start mid suf h1 h2
    have h8 : 8 * (p :: ps).length = 8 + 8 * ps.length := by
      simp [List.length_cons]; ring
    have hstep := setPtr_at t n start p mid (List.replicate (8 * ps.length) 0 ++ suf) hn
      (by simp at h2; omega) h1 hsm
    have hbuf : leBytes 2 t ++ (leBytes 2 n ++
        (mid ++ (List.replicate (8 * (p :: ps).length) (0:Nat) ++ suf))) =
        leBytes 2 t ++ (leBytes 2 n ++
          (mid ++ (List.replicate 8 0 ++ (List.replicate (8 * ps.length) 0 ++ suf)))) := by
      rw [h8, ← List.append_replicate_replicate]
      simp [List.append_assoc]
    have hnext : leBytes 2 t ++ (leBytes 2 n ++
        (mid ++ (leBytes 8 p ++ (List.replicate (8 * ps.length) 0 ++ suf)))) =
        leBytes 2 t ++ (leBytes 2 n ++
          ((mid ++ leBytes 8 p) ++ (List.replicate (8 * ps.length) 0 ++ suf))) := by
      simp [List.append_assoc]
    have hih := ih (start + 1) (mid ++ leBytes 8 p) suf
      (by simp [List.length_append, length_leBytes, h1]; ring)
      (by simp at h2 ⊢; omega)
    unfold setPtrs
    rw [hbuf, hstep]
    simp only [Option.pure_def, Option.bind_eq_bind, Option.some_bind]
    rw [hnext, hih]
    simp [ptrsBytes_cons, List.append_assoc]

theorem buildNode_eq (t : Nat) (ps : List Nat) (es : List Entry)
    (hlen : ps.length = es.length)
    (hsize : HEADER + 10 * es.length + offUpTo es es.length ≤ BTREE_PAGE_SIZE) :
    buildNode t ps es = some ⟨nodeBytes t ps es ++
      List.replicate (BTREE_PAGE_SIZE - (HEADER + 10 * es.length + offUpTo es es.length)) 0⟩ := by
  have hN : es.length ≤ 409 := by
    unfold HEADER BTREE_PAGE_SIZE at hsize; omega
  have hn : es.length < 65536 := by omega
  have hsm : HEADER + 8 * es.length ≤ 65536 := by unfold HEADER; omega
  have hdlen : 4 ≤ (pageBuf es).length := by
    simp only [pageBuf, List.length_append, List.length_replicate]
    unfold HEADER
    omega
  have hstep1 := setHeader_eq (pageBuf es) t es.length hdlen
  have hda : pageBuf es = List.replicate 4 (0:Nat) ++ (List.replicate (8 * es.length) 0 ++
      ((offsBytesFrom 0 es ++ recsBytes es) ++
        List.replicate (BTREE_PAGE_SIZE - (HEADER + 10 * es.length + offUpTo es es.length)) 0)) := by
    unfold pageBuf
    have h4 : HEADER + 8 * es.length = 4 + 8 * es.length := by unfold HEADER; rfl
    rw [h4, ← List.append_replicate_replicate]
    simp [List.append_assoc]
  have hd4 : (pageBuf es).drop 4 = List.replicate (8 * es.length) 0 ++
      ((offsBytesFrom 0 es ++ recsBytes es) ++
        List.replicate (BTREE_PAGE_SIZE - (HEADER + 10 * es.length + offUpTo es es.length)) 0) := by
    rw [hda]
    exact List.drop_left' (by simp)
  have hshape : leBytes 2 t ++ leBytes 2 es.length ++ (pageBuf es).drop 4 =
      leBytes 2 t ++ (leBytes 2 es.length ++
        (([] : List Nat) ++ (List.replicate (8 * ps.length) 0 ++
          ((offsBytesFrom 0 es ++ recsBytes es) ++
            List.replicate (BTREE_PAGE_SIZE - (HEADER + 10 * es.length + offUpTo es es.length)) 0)))) := by
    rw [hd4, hlen]
    simp [List.append_assoc]
  have hstep2 := setPtrs_eq t es.length hn hsm ps 0 []
    ((offsBytesFrom 0 es ++ recsBytes es) ++
      List.replicate (BTREE_PAGE_SIZE - (HEADER + 10 * es.length + offUpTo es es.length)) 0)
    (by simp) (by omega)
  unfold buildNode
  rw [hstep1]
  simp only [Option.pure_def, Option.bind_eq_bind, Option.some_bind]
  rw [hshape, hstep2]
  simp [nodeBytes, List.append_assoc]

theorem offsBytesFrom_cons (base : Nat) (e : Entry) (es : List Entry) :
    offsBytesFrom base (e :: es) =
      leBytes 2 (base + recSize e) ++ offsBytesFrom (base + recSize e) es := rfl

theorem offUpTo_succ (es : List Entry) : ∀ i, i < es.length →
    offUpTo es (i + 1) = offUpTo es i + recSize (es.getD i ([], [])) := by
  induction es with
  | nil => intro i h; simp at h
  | cons e es ih =>
    intro i h
    cases i with
    | zero => simp [offUpTo]
    | succ i =>
      have hh : i < es.length := by simp at h; omega
      simp [offUpTo, ih i hh]
      omega

theorem offUpTo_mono (es : List Entry) : ∀ i j, i ≤ j → offUpTo es i ≤ offUpTo es j := by
  induction es with
  | nil =>
    intro i j h
    cases i <;> cases j <;> simp [offUpTo]
  | cons e es ih =>
    intro i j h
    cases i with
    | zero =>
      cases j with
      | zero => exact Nat.le_refl _
      | succ j => simp [offUpTo]
    | succ i =>
      cases j with
      | zero => omega
      | succ j =>
        have := ih i j (by omega)
        simp [offUpTo]
        omega

theorem readPtr (ps : List Nat) : ∀ (i : Nat) (rest : List Nat), i < ps.length →
    readLE 8 (ptrsBytes ps ++ rest) (8 * i) = some (ps.getD i 0 % 256 ^ 8) := by
  induction ps with
  | nil => intro i rest h; simp at h
  | cons p ps ih =>
    intro i rest h
    cases i with
    | zero =>
      rw [ptrsBytes_cons, List.append_assoc]
      simpa using readLE_here 8 p (ptrsBytes ps ++ rest)
    | succ i =>
      have h8 : 8 * (i + 1) = (leBytes 8 p).length + 8 * i := by
        rw [length_leBytes]; ring
      rw [ptrsBytes_cons, List.append_assoc, h8, readLE_shift]
      simpa using ih i rest (by simp at h; omega)

theorem readOffs (es : List Entry) : ∀ (base j : Nat) (rest : List Nat), j < es.length →
    readLE 2 (offsBytesFrom base es ++ rest) (2 * j) =
      some ((base + offUpTo es (j + 1)) % 65536) := by
  induction es with
  | nil => intro base j rest h; simp at h
  | cons e es ih =>
    intro base j rest h
    cases j with
    | zero =>
      rw [offsBytesFrom_cons, List.append_assoc]
      have hh := readLE_here 2 (base + recSize e) (offsBytesFrom (base + recSize e) es ++ rest)
      simpa [offUpTo] using hh
    | succ j =>
      have h2 : 2 * (j + 1) = (leBytes 2 (base + recSize e)).length + 2 * j := by
        rw [length_leBytes]; ring
      rw [offsBytesFrom_cons, List.append_assoc, h2, readLE_shift]
      have hh := ih (base + recSize e) j rest (by simp at h; omega)
      rw [hh]
      have harith : base + recSize e + offUpTo es (j + 1) = base + offUpTo (e :: es) (j + 1 + 1) := by
        simp [offUpTo]; omega
      rw [harith]

theorem drop_recsBytes (es : List Entry) : ∀ (i : Nat) (rest : List Nat), i < es.length →
    (recsBytes es ++ rest).drop (offUpTo es i) =
      recBytes (es.getD i ([], [])) ++ (recsBytes (es.drop (i + 1)) ++ rest) := by
  induction es with
  | nil => intro i rest h; simp at h
  | cons e es ih =>
    intro i rest h
    cases i with
    | zero =>
      simp [recsBytes_cons, offUpTo, List.append_assoc]
    | succ i =>
      have hoff : offUpTo (e :: es) (i + 1) = (recBytes e).length + offUpTo es i := by
        rw [length_recBytes]; rfl
      rw [recsBytes_cons, List.append_assoc, hoff, List.drop_append]
      rw [ih i rest (by simp at h; omega)]
      simp

theorem length_nodeBytes (t : Nat) (ps : List Nat) (es : List Entry)
    (hlen : ps.length = es.length) :
    (nodeBytes t ps es).length = HEADER + 10 * es.length + offUpTo es es.length := by
  simp [nodeBytes, List.length_append, length_leBytes, length_ptrsBytes,
    length_offsBytesFrom, length_recsBytes, hlen, HEADER]
  ring

theorem nodeBytes_assoc (t : Nat) (ps : List Nat) (es : List Entry) (rest : List Nat) :
    nodeBytes t ps es ++ rest =
      leBytes 2 t ++ (leBytes 2 es.length ++ (ptrsBytes ps ++
        (offsBytesFrom 0 es ++ (recsBytes es ++ rest)))) := by
  simp [nodeBytes, List.append_assoc]

theorem btype_nodeBytes (t : Nat) (ps : List Nat) (es : List Entry) (rest : List Nat) :
    BNode.btype ⟨nodeBytes t ps es ++ rest⟩ = some (t % 65536) := by
  rw [nodeBytes_assoc]
  exact btype_hdr t _

theorem nkeys_nodeBytes (t : Nat) (ps : List Nat) (es : List Entry) (rest : List Nat) :
    BNode.nkeys ⟨nodeBytes t ps es ++ rest⟩ = some (es.length % 65536) := by
  rw [nodeBytes_assoc]
  exact nkeys_hdr2 t _ _

theorem getPtr_nodeBytes (t : Nat) (ps : List Nat) (es : List Entry) (rest : List Nat)
    (hlen : ps.length = es.length)
    (hsize : HEADER + 10 * es.length + offUpTo es es.length ≤ BTREE_PAGE_SIZE)
    (i : Nat) (hi : i < es.length) :
    BNode.getPtr ⟨nodeBytes t ps es ++ rest⟩ i = some (ps.getD i 0 % 256 ^ 8) := by
  have hN : es.length ≤ 409 := by unfold HEADER BTREE_PAGE_SIZE at hsize; omega
  have hmod : es.length % 65536 = es.length := Nat.mod_eq_of_lt (by omega)
  unfold BNode.getPtr
  rw [nkeys_nodeBytes, hmod]
  simp only [Option.pure_def, Option.bind_eq_bind, Option.some_bind]
  rw [if_pos hi]
  have hpos : (HEADER + 8 * i) % 65536 = HEADER + 8 * i :=
    Nat.mod_eq_of_lt (by unfold HEADER; omega)
  rw [hpos]
  simp only [HEADER]
  have hsh : nodeBytes t ps es ++ rest =
      (leBytes 2 t ++ leBytes 2 es.length) ++
        (ptrsBytes ps ++ (offsBytesFrom 0 es ++ (recsBytes es ++ rest))) := by
    simp [nodeBytes, List.append_assoc]
  have hl : (leBytes 2 t ++ leBytes 2 es.length).length = 4 := by
    simp [List.length_append, length_leBytes]
  have hsr := readLE_shift 8 (leBytes 2 t ++ leBytes 2 es.length)
    (ptrsBytes ps ++ (offsBytesFrom 0 es ++ (recsBytes es ++ rest))) (8 * i)
  rw [hl] at hsr
  rw [hsh, hsr, readPtr ps i _ (by omega)]

theorem getOffset_nodeBytes (t : Nat) (ps : List Nat) (es : List Entry) (rest : List Nat)
    (hlen : ps.length = es.length)
    (hsize : HEADER + 10 * es.length + offUpTo es es.length ≤ BTREE_PAGE_SIZE)
    (i : Nat) (h1 : 1 ≤ i) (h2 : i ≤ es.length) :
    BNode.getOffset ⟨nodeBytes t ps es ++ rest⟩ i = some (offUpTo es i) := by
  have hN : es.length ≤ 409 := by unfold HEADER BTREE_PAGE_SIZE at hsize; omega
  have hmod : es.length % 65536 = es.length := Nat.mod_eq_of_lt (by omega)
  have hofftot : offUpTo es i ≤ offUpTo es es.length := offUpTo_mono es i es.length h2
  have hoffb : offUpTo es i < 65536 := by
    unfold HEADER BTREE_PAGE_SIZE at hsize; omega
  unfold BNode.getOffset
  rw [if_neg (by omega)]
  unfold offsetPos
  rw [nkeys_nodeBytes, hmod]
  simp only [Option.pure_def, Option.bind_eq_bind, Option.some_bind]
  rw [if_pos ⟨h1, h2⟩]
  simp only [Option.some_bind]
  have hp : (HEADER + 8 * es.length + 2 * (i - 1)) % 65536 =
      HEADER + 8 * es.length + 2 * (i - 1) :=
    Nat.mod_eq_of_lt (by unfold HEADER; omega)
  rw [hp]
  simp only [HEADER]
  have hsh : nodeBytes t ps es ++ rest =
      (leBytes 2 t ++ leBytes 2 es.length ++ ptrsBytes ps) ++
        (offsBytesFrom 0 es ++ (recsBytes es ++ rest)) := by
    simp [nodeBytes, List.append_assoc]
  have hl : (leBytes 2 t ++ leBytes 2 es.length ++ ptrsBytes ps).length =
      4 + 8 * es.length := by
    simp [List.length_append, length_leBytes, length_ptrsBytes, hlen]
    omega
  have hsr := readLE_shift 2 (leBytes 2 t ++ leBytes 2 es.length ++ ptrsBytes ps)
    (offsBytesFrom 0 es ++ (recsBytes es ++ rest)) (2 * (i - 1))
  rw [hl] at hsr
  rw [hsh, hsr, readOffs es 0 (i - 1) _ (by omega)]
  have hi1 : i - 1 + 1 = i := by omega
  rw [hi1]
  simp [Nat.mod_eq_of_lt hoffb]

theorem kvPos_nodeBytes (t : Nat) (ps : List Nat) (es : List Entry) (rest : List Nat)
    (hlen : ps.length = es.length)
    (hsize : HEADER + 10 * es.length + offUpTo es es.length ≤ BTREE_PAGE_SIZE)
    (i : Nat) (h2 : i ≤ es.length) :
    BNode.kvPos ⟨nodeBytes t ps es ++ rest⟩ i =
      some (HEADER + 10 * es.length + offUpTo es i) := by
  have hN : es.length ≤ 409 := by unfold HEADER BTREE_PAGE_SIZE at hsize; omega
  have hmod : es.length % 65536 = es.length := Nat.mod_eq_of_lt (by omega)
  have hofftot : offUpTo es i ≤ offUpTo es es.length := offUpTo_mono es i es.length h2
  have hb : (HEADER + 8 * es.length + 2 * es.length + offUpTo es i) % 65536 =
      HEADER + 8 * es.length + 2 * es.length + offUpTo es i :=
    Nat.mod_eq_of_lt (by simp only [HEADER, BTREE_PAGE_SIZE] at hsize ⊢; omega)
  have harith : HEADER + 8 * es.length + 2 * es.length + offUpTo es i =
      HEADER + 10 * es.length + offUpTo es i := by
    unfold HEADER; ring
  unfold BNode.kvPos
  rw [nkeys_nodeBytes, hmod]
  simp only [Option.pure_def, Option.bind_eq_bind, Option.some_bind]
  rw [if_pos h2]
  rcases Nat.eq_zero_or_pos i with h0 | hpos1
  · subst h0
    have hoff0 : BNode.getOffset ⟨nodeBytes t ps es ++ rest⟩ 0 = some 0 := by
      unfold BNode.getOffset
      rw [if_pos rfl]
    rw [hoff0]
    simp only [Option.some_bind]
    have hz : (HEADER + 8 * es.length + 2 * es.length + 0) % 65536 =
        HEADER + 10 * es.length + offUpTo es 0 := by
      simp only [offUpTo, Nat.add_zero]
      have e1 : HEADER + 8 * es.length + 2 * es.length = HEADER + 10 * es.length := by
        unfold HEADER; ring
      rw [e1]
      refine Nat.mod_eq_of_lt ?_
      simp only [HEADER, BTREE_PAGE_SIZE] at hsize ⊢
      omega
    rw [hz]
  · rw [getOffset_nodeBytes t ps es rest hlen hsize i hpos1 h2]
    simp only [Option.some_bind]
    rw [hb, harith]

/-- The entry stored at index `i` (default: the empty entry). -/
def entryAt (es : List Entry) (i : Nat) : Entry := es.getD i ([], [])

theorem record_drop (t : Nat) (ps : List Nat) (es : List Entry) (rest : List Nat)
    (hlen : ps.length = es.length) (i : Nat) (hi : i < es.length) :
    (nodeBytes t ps es ++ rest).drop (HEADER + 10 * es.length + offUpTo es i) =
      recBytes (entryAt es i) ++ (recsBytes (es.drop (i + 1)) ++ rest) := by
  have hsh : nodeBytes t ps es ++ rest =
      (leBytes 2 t ++ leBytes 2 es.length ++ ptrsBytes ps ++ offsBytesFrom 0 es) ++
        (recsBytes es ++ rest) := by
    simp [nodeBytes, List.append_assoc]
  have hPlen : (leBytes 2 t ++ leBytes 2 es.length ++ ptrsBytes ps ++
      offsBytesFrom 0 es).length = HEADER + 10 * es.length := by
    simp [List.length_append, length_leBytes, length_ptrsBytes,
      length_offsBytesFrom, hlen, HEADER]
    omega
  have hd := @List.drop_append Nat
    (leBytes 2 t ++ leBytes 2 es.length ++ ptrsBytes ps ++ offsBytesFrom 0 es)
    (recsBytes es ++ rest) (offUpTo es i)
  rw [hPlen] at hd
  rw [hsh, hd]
  exact drop_recsBytes es i rest hi

theorem getKey_nodeBytes (t : Nat) (ps : List Nat) (es : List Entry) (rest : List Nat)
    (hlen : ps.length = es.length)
    (hsize : HEADER + 10 * es.length + offUpTo es es.length ≤ BTREE_PAGE_SIZE)
    (i : Nat) (hi : i < es.length) :
    BNode.getKey ⟨nodeBytes t ps es ++ rest⟩ i = some (entryAt es i).1 := by
  have hN : es.length ≤ 409 := by simp only [HEADER, BTREE_PAGE_SIZE] at hsize; omega
  have hmod : es.length % 65536 = es.length := Nat.mod_eq_of_lt (by omega)
  have hsucc := offUpTo_succ es i hi
  have htot : offUpTo es (i + 1) ≤ offUpTo es es.length :=
    offUpTo_mono es (i + 1) es.length (by omega)
  have hrs : recSize (entryAt es i) =
      4 + (entryAt es i).1.length + (entryAt es i).2.length := rfl
  have hkb : (entryAt es i).1.length < 65536 := by
    simp only [HEADER, BTREE_PAGE_SIZE] at hsize
    simp only [entryAt] at hrs ⊢
    omega
  have hkm : (entryAt es i).1.length % 65536 = (entryAt es i).1.length :=
    Nat.mod_eq_of_lt hkb
  have hdrop := record_drop t ps es rest hlen i hi
  have hrecshape : recBytes (entryAt es i) ++ (recsBytes (es.drop (i + 1)) ++ rest) =
      leBytes 2 (entryAt es i).1.length ++
        (leBytes 2 (entryAt es i).2.length ++
          ((entryAt es i).1 ++ ((entryAt es i).2 ++ (recsBytes (es.drop (i + 1)) ++ rest)))) := by
    simp [recBytes, List.append_assoc]
  have hread : readLE 2 (nodeBytes t ps es ++ rest)
      (HEADER + 10 * es.length + offUpTo es i) =
      some ((entryAt es i).1.length % 65536) := by
    have hh := readLE_of_drop 2 (nodeBytes t ps es ++ rest)
      (HEADER + 10 * es.length + offUpTo es i) (entryAt es i).1.length
      (leBytes 2 (entryAt es i).2.length ++
        ((entryAt es i).1 ++ ((entryAt es i).2 ++ (recsBytes (es.drop (i + 1)) ++ rest))))
      (by omega) (by rw [hdrop, hrecshape])
    simpa using hh
  have hfl : (nodeBytes t ps es ++ rest).length =
      HEADER + 10 * es.length + offUpTo es es.length + rest.length := by
    simp [List.length_append, length_nodeBytes t ps es hlen]
  have hm4 : (HEADER + 10 * es.length + offUpTo es i + 4) % 65536 =
      HEADER + 10 * es.length + offUpTo es i + 4 :=
    Nat.mod_eq_of_lt (by
      simp only [HEADER, BTREE_PAGE_SIZE] at hsize ⊢
      omega)
  have hdrop4 : (nodeBytes t ps es ++ rest).drop
      (HEADER + 10 * es.length + offUpTo es i + 4) =
      (entryAt es i).1 ++ ((entryAt es i).2 ++ (recsBytes (es.drop (i + 1)) ++ rest)) := by
    rw [← List.drop_drop, hdrop, hrecshape]
    have hg : leBytes 2 (entryAt es i).1.length ++
        (leBytes 2 (entryAt es i).2.length ++
          ((entryAt es i).1 ++ ((entryAt es i).2 ++ (recsBytes (es.drop (i + 1)) ++ rest)))) =
        (leBytes 2 (entryAt es i).1.length ++ leBytes 2 (entryAt es i).2.length) ++
          ((entryAt es i).1 ++ ((entryAt es i).2 ++ (recsBytes (es.drop (i + 1)) ++ rest))) := by
      simp [List.append_assoc]
    rw [hg]
    exact List.drop_left' (by simp [List.length_append, length_leBytes])
  have hslice : sliceFrom (nodeBytes t ps es ++ rest)
      ((HEADER + 10 * es.length + offUpTo es i + 4) % 65536) (entryAt es i).1.length =
      some (entryAt es i).1 := by
    rw [hm4]
    unfold sliceFrom
    rw [if_pos (by
      rw [hfl]
      simp only [entryAt] at hrs
      simp only [HEADER, BTREE_PAGE_SIZE] at hsize ⊢
      simp only [entryAt]
      omega)]
    rw [hdrop4, List.take_left' rfl]
  unfold BNode.getKey
  rw [nkeys_nodeBytes, hmod]
  simp only [Option.pure_def, Option.bind_eq_bind, Option.some_bind]
  rw [if_pos hi, kvPos_nodeBytes t ps es rest hlen hsize i (by omega)]
  simp only [Option.some_bind]
  rw [hread]
  simp only [Option.some_bind]
  rw [hkm]
  exact hslice

theorem getVal_nodeBytes (t : Nat) (ps : List Nat) (es : List Entry) (rest : List Nat)
    (hlen : ps.length = es.length)
    (hsize : HEADER + 10 * es.length + offUpTo es es.length ≤ BTREE_PAGE_SIZE)
    (i : Nat) (hi : i < es.length) :
    BNode.getVal ⟨nodeBytes t ps es ++ rest⟩ i = some (entryAt es i).2 := by
  have hN : es.length ≤ 409 := by simp only [HEADER, BTREE_PAGE_SIZE] at hsize; omega
  have hmod : es.length % 65536 = es.length := Nat.mod_eq_of_lt (by omega)
  have hsucc := offUpTo_succ es i hi
  have htot : offUpTo es (i + 1) ≤ offUpTo es es.length :=
    offUpTo_mono es (i + 1) es.length (by omega)
  have hrs : recSize (entryAt es i) =
      4 + (entryAt es i).1.length + (entryAt es i).2.length := rfl
  have hkb : (entryAt es i).1.length < 65536 := by
    simp only [HEADER, BTREE_PAGE_SIZE] at hsize
    simp only [entryAt] at hrs ⊢
    omega
  have hvb : (entryAt es i).2.length < 65536 := by
    simp only [HEADER, BTREE_PAGE_SIZE] at hsize
    simp only [entryAt] at hrs ⊢
    omega
  have hkm : (entryAt es i).1.length % 65536 = (entryAt es i).1.length :=
    Nat.mod_eq_of_lt hkb
  have hvm : (entryAt es i).2.length % 65536 = (entryAt es i).2.length :=
    Nat.mod_eq_of_lt hvb
  have hdrop := record_drop t ps es rest hlen i hi
  have hrecshape : recBytes (entryAt es i) ++ (recsBytes (es.drop (i + 1)) ++ rest) =
      leBytes 2 (entryAt es i).1.length ++
        (leBytes 2 (entryAt es i).2.length ++
          ((entryAt es i).1 ++ ((entryAt es i).2 ++ (recsBytes (es.drop (i + 1)) ++ rest)))) := by
    simp [recBytes, List.append_assoc]
  have hread : readLE 2 (nodeBytes t ps es ++ rest)
      (HEADER + 10 * es.length + offUpTo es i) =
      some ((entryAt es i).1.length % 65536) := by
    have hh := readLE_of_drop 2 (nodeBytes t ps es ++ rest)
      (HEADER + 10 * es.length + offUpTo es i) (entryAt es i).1.length
      (leBytes 2 (entryAt es i).2.length ++
        ((entryAt es i).1 ++ ((entryAt es i).2 ++ (recsBytes (es.drop (i + 1)) ++ rest))))
      (by omega) (by rw [hdrop, hrecshape])
    simpa using hh
  have hm2 : (HEADER + 10 * es.length + offUpTo es i + 2) % 65536 =
      HEADER + 10 * es.length + offUpTo es i + 2 :=
    Nat.mod_eq_of_lt (by
      have := offUpTo_mono es i es.length (by omega)
      simp only [HEADER, BTREE_PAGE_SIZE] at hsize ⊢
      omega)
  have hdrop2 : (nodeBytes t ps es ++ rest).drop
      (HEADER + 10 * es.length + offUpTo es i + 2) =
      leBytes 2 (entryAt es i).2.length ++
        ((entryAt es i).1 ++ ((entryAt es i).2 ++ (recsBytes (es.drop (i + 1)) ++ rest))) := by
    rw [← List.drop_drop, hdrop, hrecshape]
    exact List.drop_left' (length_leBytes 2 _)
  have hreadv : readLE 2 (nodeBytes t ps es ++ rest)
      (HEADER + 10 * es.length + offUpTo es i + 2) =
      some ((entryAt es i).2.length % 65536) := by
    have hh := readLE_of_drop 2 (nodeBytes t ps es ++ rest)
      (HEADER + 10 * es.length + offUpTo es i + 2) (entryAt es i).2.length
      ((entryAt es i).1 ++ ((entryAt es i).2 ++ (recsBytes (es.drop (i + 1)) ++ rest)))
      (by omega) hdrop2
    simpa using hh
  have hfl : (nodeBytes t ps es ++ rest).length =
      HEADER + 10 * es.length + offUpTo es es.length + rest.length := by
    simp [List.length_append, length_nodeBytes t ps es hlen]
  have hm4 : (HEADER + 10 * es.length + offUpTo es i + 4) % 65536 =
      HEADER + 10 * es.length + offUpTo es i + 4 :=
    Nat.mod_eq_of_lt (by
      simp only [HEADER, BTREE_PAGE_SIZE] at hsize ⊢
      omega)
  have hdrop4 : (nodeBytes t ps es ++ rest).drop
      (HEADER + 10 * es.length + offUpTo es i + 4) =
      (entryAt es i).1 ++ ((entryAt es i).2 ++ (recsBytes (es.drop (i + 1)) ++ rest)) := by
    rw [← List.drop_drop, hdrop, hrecshape]
    have hg : leBytes 2 (entryAt es i).1.length ++
        (leBytes 2 (entryAt es i).2.length ++
          ((entryAt es i).1 ++ ((entryAt es i).2 ++ (recsBytes (es.drop (i + 1)) ++ rest)))) =
        (leBytes 2 (entryAt es i).1.length ++ leBytes 2 (entryAt es i).2.length) ++
          ((entryAt es i).1 ++ ((entryAt es i).2 ++ (recsBytes (es.drop (i + 1)) ++ rest))) := by
      simp [List.append_assoc]
    rw [hg]
    exact List.drop_left' (by simp [List.length_append, length_leBytes])
  have hm4k : (HEADER + 10 * es.length + offUpTo es i + 4 + (entryAt es i).1.length) % 65536 =
      HEADER + 10 * es.length + offUpTo es i + 4 + (entryAt es i).1.length :=
    Nat.mod_eq_of_lt (by
      simp only [entryAt] at hrs
      simp only [HEADER, BTREE_PAGE_SIZE] at hsize ⊢
      simp only [entryAt]
      omega)
  have hdropk : (nodeBytes t ps es ++ rest).drop
      (HEADER + 10 * es.length + offUpTo es i + 4 + (entryAt es i).1.length) =
      (entryAt es i).2 ++ (recsBytes (es.drop (i + 1)) ++ rest) := by
    rw [← List.drop_drop, hdrop4]
    exact List.drop_left' rfl
  have hslice2 : sliceFrom (nodeBytes t ps es ++ rest)
      ((HEADER + 10 * es.length + offUpTo es i + 4 + (entryAt es i).1.length) % 65536)
      (entryAt es i).2.length = some (entryAt es i).2 := by
    rw [hm4k]
    unfold sliceFrom
    rw [if_pos (by
      rw [hfl]
      simp only [entryAt] at hrs
      simp only [HEADER, BTREE_PAGE_SIZE] at hsize ⊢
      simp only [entryAt]
      omega)]
    rw [hdropk, List.take_left' rfl]
  unfold BNode.getVal
  rw [nkeys_nodeBytes, hmod]
  simp only [Option.pure_def, Option.bind_eq_bind, Option.some_bind]
  rw [if_pos hi, kvPos_nodeBytes t ps es rest hlen hsize i (by omega)]
  simp only [Option.some_bind]
  rw [hread]
  simp only [Option.some_bind]
  rw [hm2, hreadv]
  simp only [Option.some_bind]
  rw [hkm, hvm]
  exact hslice2

theorem leVal_take_succ (data : List Nat) (pos w : Nat) (h : pos < data.length) :
    leVal ((data.drop pos).take (w + 1)) =
      data.getD pos 0 + 256 * leVal ((data.drop (pos + 1)).take w) := by
  rw [List.drop_eq_getElem_cons h, List.take_succ_cons, leVal]
  congr 1
  rw [List.getD_eq_getElem?_getD, List.getElem?_eq_getElem h]
  rfl

theorem leVal_take_two (data : List Nat) (pos : Nat) (h : pos + 2 ≤ data.length) :
    leVal ((data.drop pos).take 2) = data.getD pos 0 + 256 * data.getD (pos + 1) 0 := by
  rw [leVal_take_succ data pos 1 (by omega), leVal_take_succ data (pos + 1) 0 (by omega)]
  simp [leVal]

theorem readLE_getD_two (data : List Nat) (pos : Nat) (h : pos + 2 ≤ data.length) :
    readLE 2 data pos = some (data.getD pos 0 + 256 * data.getD (pos + 1) 0) := by
  unfold readLE
  rw [if_pos h, leVal_take_two data pos h]

theorem getPtr_none (node : BNode) (n i : Nat) (hn : node.nkeys = some n)
    (hi : n ≤ i) : node.getPtr i = none := by
  unfold BNode.getPtr
  rw [hn]
  simp only [Option.pure_def, Option.bind_eq_bind, Option.some_bind]
  rw [if_neg (by omega)]

theorem getPtr_some (node : BNode) (n i : Nat) (hn : node.nkeys = some n)
    (hi : i < n) (hb65 : HEADER + 8 * i + 8 ≤ 65536)
    (hblen : HEADER + 8 * i + 8 ≤ node.data.length) :
    node.getPtr i = some (leVal ((node.data.drop (HEADER + 8 * i)).take 8)) := by
  unfold BNode.getPtr
  rw [hn]
  simp only [Option.pure_def, Option.bind_eq_bind, Option.some_bind]
  rw [if_pos hi]
  have hm : (HEADER + 8 * i) % 65536 = HEADER + 8 * i :=
    Nat.mod_eq_of_lt (by omega)
  rw [hm]
  unfold readLE
  rw [if_pos (by omega)]

theorem setPtr_none (node : BNode) (n i v : Nat) (hn : node.nkeys = some n)
    (hi : n ≤ i) : node.setPtr i v = none := by
  unfold BNode.setPtr
  rw [hn]
  simp only [Option.pure_def, Option.bind_eq_bind, Option.some_bind]
  rw [if_neg (by omega)]

theorem setPtr_some (node : BNode) (n i v : Nat) (hn : node.nkeys = some n)
    (hi : i < n) (hb65 : HEADER + 8 * i + 8 ≤ 65536)
    (hblen : HEADER + 8 * i + 8 ≤ node.data.length) :
    node.setPtr i v = some ⟨node.data.take (HEADER + 8 * i) ++ leBytes 8 v ++
      node.data.drop (HEADER + 8 * i + 8)⟩ := by
  unfold BNode.setPtr
  rw [hn]
  simp only [Option.pure_def, Option.bind_eq_bind, Option.some_bind]
  rw [if_pos hi]
  have hm : (HEADER + 8 * i) % 65536 = HEADER + 8 * i :=
    Nat.mod_eq_of_lt (by omega)
  rw [hm]
  unfold writeBytes
  rw [length_leBytes, if_pos (by omega)]
  simp only [Option.pure_def, Option.bind_eq_bind, Option.some_bind]

theorem getOffset_zero (node : BNode) : node.getOffset 0 = some 0 := by
  unfold BNode.getOffset
  rw [if_pos rfl]

theorem getOffset_pos (node : BNode) (n i : Nat) (hn : node.nkeys = some n)
    (h1 : 1 ≤ i) (h2 : i ≤ n)
    (hb65 : HEADER + 8 * n + 2 * (i - 1) + 2 ≤ 65536)
    (hblen : HEADER + 8 * n + 2 * (i - 1) + 2 ≤ node.data.length) :
    node.getOffset i = some (node.data.getD (HEADER + 8 * n + 2 * (i - 1)) 0 +
      256 * node.data.getD (HEADER + 8 * n + 2 * (i - 1) + 1) 0) := by
  unfold BNode.getOffset
  rw [if_neg (by omega)]
  unfold offsetPos
  rw [hn]
  simp only [Option.pure_def, Option.bind_eq_bind, Option.some_bind]
  rw [if_pos ⟨h1, h2⟩]
  simp only [Option.some_bind]
  have hm : (HEADER + 8 * n + 2 * (i - 1)) % 65536 = HEADER + 8 * n + 2 * (i - 1) :=
    Nat.mod_eq_of_lt (by omega)
  rw [hm]
  exact readLE_getD_two node.data _ hblen

theorem kvPos_some (node : BNode) (n i off : Nat) (hn : node.nkeys = some n)
    (hi : i ≤ n) (hoff : node.getOffset i = some off)
    (hb : HEADER + 8 * n + 2 * n + off < 65536) :
    node.kvPos i = some (HEADER + 8 * n + 2 * n + off) := by
  unfold BNode.kvPos
  rw [hn]
  simp only [Option.pure_def, Option.bind_eq_bind, Option.some_bind]
  rw [if_pos hi, hoff]
  simp only [Option.some_bind]
  rw [Nat.mod_eq_of_lt hb]

theorem kvPos_oob (node : BNode) (n i : Nat) (hn : node.nkeys = some n)
    (hi : n < i) : node.kvPos i = none := by
  unfold BNode.kvPos
  rw [hn]
  simp only [Option.pure_def, Option.bind_eq_bind, Option.some_bind]
  rw [if_neg (by omega)]

theorem getKey_oob (node : BNode) (n i : Nat) (hn : node.nkeys = some n)
    (hi : n ≤ i) : node.getKey i = none := by
  unfold BNode.getKey
  rw [hn]
  simp only [Option.pure_def, Option.bind_eq_bind, Option.some_bind]
  rw [if_neg (by omega)]

theorem getVal_oob (node : BNode) (n i : Nat) (hn : node.nkeys = some n)
    (hi : n ≤ i) : node.getVal i = none := by
  unfold BNode.getVal
  rw [hn]
  simp only [Option.pure_def, Option.bind_eq_bind, Option.some_bind]
  rw [if_neg (by omega)]

theorem getKey_some (node : BNode) (n i pos klen : Nat) (hn : node.nkeys = some n)
    (hi : i < n) (hpos : node.kvPos i = some pos)
    (hk : readLE 2 node.data pos = some klen)
    (hb65 : pos + 4 + klen < 65536)
    (hblen : pos + 4 + klen ≤ node.data.length) :
    node.getKey i = some ((node.data.drop (pos + 4)).take klen) := by
  unfold BNode.getKey
  rw [hn]
  simp only [Option.pure_def, Option.bind_eq_bind, Option.some_bind]
  rw [if_pos hi, hpos]
  simp only [Option.some_bind]
  rw [hk]
  simp only [Option.some_bind]
  have hm : (pos + 4) % 65536 = pos + 4 := Nat.mod_eq_of_lt (by omega)
  rw [hm]
  unfold sliceFrom
  rw [if_pos (by omega)]

theorem getVal_some (node : BNode) (n i pos klen vlen : Nat) (hn : node.nkeys = some n)
    (hi : i < n) (hpos : node.kvPos i = some pos)
    (hk : readLE 2 node.data pos = some klen)
    (hv : readLE 2 node.data ((pos + 2) % 65536) = some vlen)
    (hb65 : pos + 4 + klen + vlen < 65536)
    (hblen : pos + 4 + klen + vlen ≤ node.data.length) :
    node.getVal i = some ((node.data.drop (pos + 4 + klen)).take vlen) := by
  unfold BNode.getVal
  rw [hn]
  simp only [Option.pure_def, Option.bind_eq_bind, Option.some_bind]
  rw [if_pos hi, hpos]
  simp only [Option.some_bind]
  rw [hk]
  simp only [Option.some_bind]
  rw [hv]
  simp only [Option.some_bind]
  have hm : (pos + 4 + klen) % 65536 = pos + 4 + klen := Nat.mod_eq_of_lt (by omega)
  rw [hm]
  unfold sliceFrom
  rw [if_pos (by omega)]

theorem nbytes_bind (node : BNode) (n : Nat) (hn : node.nkeys = some n) :
    node.nbytes = node.kvPos n := by
  unfold BNode.nbytes
  rw [hn]
  simp only [Option.pure_def, Option.bind_eq_bind, Option.some_bind]

theorem getD_setHeader (d : List Nat) (t k j : Nat) (hj : 4 ≤ j) :
    (leBytes 2 t ++ leBytes 2 k ++ d.drop 4).getD j 0 = d.getD j 0 := by
  have hl4 : (leBytes 2 t ++ leBytes 2 k).length = 4 := by
    simp [List.length_append, length_leBytes]
  rw [List.getD_eq_getElem?_getD, List.getD_eq_getElem?_getD,
    List.getElem?_append_right (by rw [hl4]; omega), hl4, List.getElem?_drop]
  have he : 4 + (j - 4) = j := by omega
  rw [he]

theorem getD_setPtr (d : List Nat) (p v j : Nat) (hp : p + 8 ≤ d.length)
    (hj : j < p ∨ p + 8 ≤ j) :
    (d.take p ++ leBytes 8 v ++ d.drop (p + 8)).getD j 0 = d.getD j 0 := by
  have hlt : (d.take p).length = p := by
    rw [List.length_take]; omega
  have hl8 : (d.take p ++ leBytes 8 v).length = p + 8 := by
    simp [List.length_append, length_leBytes]
    omega
  rcases hj with hj | hj
  · rw [List.getD_eq_getElem?_getD, List.getD_eq_getElem?_getD,
      List.getElem?_append_left (by rw [hl8]; omega),
      List.getElem?_append_left (by rw [hlt]; omega),
      List.getElem?_take_of_lt hj]
  · rw [List.getD_eq_getElem?_getD, List.getD_eq_getElem?_getD,
      List.getElem?_append_right (by rw [hl8]; omega), hl8, List.getElem?_drop]
    have he : p + 8 + (j - (p + 8)) = j := by omega
    rw [he]

/-- Claim C1: for any node built via the codec (type and key count written by
`setHeader`, child pointers by `setPtr`, offset table and packed key-value
records laid out per the page format), reading the buffer back through the
codec accessors (`btype`, `nkeys`, `getPtr`, `getKey`, `getVal`) reproduces
the identical type, key count, every child pointer, and every key and value
byte-for-byte. -/
theorem C1_codec_roundtrip (t : Nat) (ps : List Nat) (es : List Entry)
    (hlen : ps.length = es.length) (ht : t < 65536)
    (hp : ∀ p ∈ ps, p < 256 ^ 8)
    (hsize : HEADER + 10 * es.length + offUpTo es es.length ≤ BTREE_PAGE_SIZE) :
    ∃ node : BNode, buildNode t ps es = some node ∧
      node.btype = some t ∧
      node.nkeys = some es.length ∧
      (∀ i, i < es.length → node.getPtr i = some (ps.getD i 0)) ∧
      (∀ i, i < es.length → node.getKey i = some (entryAt es i).1 ∧
        node.getVal i = some (entryAt es i).2) := by
  have hN : es.length ≤ 409 := by simp only [HEADER, BTREE_PAGE_SIZE] at hsize; omega
  refine ⟨_, buildNode_eq t ps es hlen hsize, ?_, ?_, ?_, ?_⟩
  · rw [btype_nodeBytes, Nat.mod_eq_of_lt ht]
  · rw [nkeys_nodeBytes, Nat.mod_eq_of_lt (by omega)]
  · intro i hi
    rw [getPtr_nodeBytes t ps es _ hlen hsize i hi]
    have hmem : ps.getD i 0 ∈ ps := by
      rw [List.getD_eq_getElem?_getD, List.getElem?_eq_getElem (by omega)]
      simp only [Option.getD_some]
      exact List.getElem_mem (by omega)
    rw [Nat.mod_eq_of_lt (hp _ hmem)]
  · intro i hi
    exact ⟨getKey_nodeBytes t ps es _ hlen hsize i hi,
      getVal_nodeBytes t ps es _ hlen hsize i hi⟩

/-- Claim C2: the encoded page layout is little-endian throughout: the type
tag occupies bytes 0-1 and the key count bytes 2-3 (each decoded as
`b0 + 256 * b1`), child pointer `i` is the 8 little-endian bytes at
`HEADER + 8*i`, the stored offset of record `i ≥ 1` is the 2 bytes at
`HEADER + 8*nkeys + 2*(i-1)`, the packed key-value records begin at
`HEADER + 10*nkeys`, and each record is laid out as `keyLen:2B (LE),
valLen:2B (LE), keyBytes, valBytes`. -/
theorem C2_page_layout (node : BNode) (n : Nat) (hn : node.nkeys = some n) :
    (2 ≤ node.data.length →
      node.btype = some (node.data.getD 0 0 + 256 * node.data.getD 1 0)) ∧
    (4 ≤ node.data.length →
      node.nkeys = some (node.data.getD 2 0 + 256 * node.data.getD 3 0)) ∧
    (∀ i, i < n → HEADER + 8 * i + 8 ≤ 65536 → HEADER + 8 * i + 8 ≤ node.data.length →
      node.getPtr i = some (leVal ((node.data.drop (HEADER + 8 * i)).take 8))) ∧
    (∀ i, 1 ≤ i → i ≤ n → HEADER + 8 * n + 2 * (i - 1) + 2 ≤ 65536 →
      HEADER + 8 * n + 2 * (i - 1) + 2 ≤ node.data.length →
      node.getOffset i = some (node.data.getD (HEADER + 8 * n + 2 * (i - 1)) 0 +
        256 * node.data.getD (HEADER + 8 * n + 2 * (i - 1) + 1) 0)) ∧
    (HEADER + 10 * n < 65536 → node.kvPos 0 = some (HEADER + 10 * n)) ∧
    (∀ i pos, i < n → node.kvPos i = some pos →
      pos + 4 + (node.data.getD pos 0 + 256 * node.data.getD (pos + 1) 0) +
        (node.data.getD (pos + 2) 0 + 256 * node.data.getD (pos + 3) 0) < 65536 →
      pos + 4 + (node.data.getD pos 0 + 256 * node.data.getD (pos + 1) 0) +
        (node.data.getD (pos + 2) 0 + 256 * node.data.getD (pos + 3) 0) ≤
          node.data.length →
      node.getKey i = some ((node.data.drop (pos + 4)).take
        (node.data.getD pos 0 + 256 * node.data.getD (pos + 1) 0)) ∧
      node.getVal i = some ((node.data.drop
        (pos + 4 + (node.data.getD pos 0 + 256 * node.data.getD (pos + 1) 0))).take
        (node.data.getD (pos + 2) 0 + 256 * node.data.getD (pos + 3) 0))) := by
  refine ⟨?_, ?_, ?_, ?_, ?_, ?_⟩
  · intro h2
    unfold BNode.btype
    exact readLE_getD_two node.data 0 (by omega)
  · intro h4
    unfold BNode.nkeys
    exact readLE_getD_two node.data 2 (by omega)
  · intro i hi hb65 hblen
    exact getPtr_some node n i hn hi hb65 hblen
  · intro i h1 h2 hb65 hblen
    exact getOffset_pos node n i hn h1 h2 hb65 hblen
  · intro hb
    have := kvPos_some node n 0 0 hn (Nat.zero_le n) (getOffset_zero node) (by omega)
    rw [this]
    have he : HEADER + 8 * n + 2 * n + 0 = HEADER + 10 * n := by omega
    rw [he]
  · intro i pos hi hpos hb65 hblen
    have hk : readLE 2 node.data pos =
        some (node.data.getD pos 0 + 256 * node.data.getD (pos + 1) 0) :=
      readLE_getD_two node.data pos (by omega)
    have hm2 : (pos + 2) % 65536 = pos + 2 := Nat.mod_eq_of_lt (by omega)
    have hv : readLE 2 node.data ((pos + 2) % 65536) =
        some (node.data.getD (pos + 2) 0 + 256 * node.data.getD (pos + 3) 0) := by
      rw [hm2]
      have := readLE_getD_two node.data (pos + 2) (by omega)
      have he : pos + 2 + 1 = pos + 3 := by omega
      rw [he] at this
      exact this
    exact ⟨getKey_some node n i pos _ hn hi hpos hk (by omega) (by omega),
      getVal_some node n i pos _ _ hn hi hpos hk hv (by omega) (by omega)⟩

/-- Claim C3: for every node, `nbytes` equals `kvPos` applied to `nkeys`,
i.e. `HEADER + 10*nkeys + offset(nkeys)`, with no special case needed for the
empty key-value region thanks to the `offset(0) = 0` sentinel. -/
theorem C3_nbytes_spec (node : BNode) (n : Nat) (hn : node.nkeys = some n) :
    node.nbytes = node.kvPos n ∧
    (∀ off, node.getOffset n = some off → HEADER + 10 * n + off < 65536 →
      node.nbytes = some (HEADER + 10 * n + off)) ∧
    (n = 0 → node.nbytes = some HEADER) := by
  refine ⟨nbytes_bind node n hn, ?_, ?_⟩
  · intro off hoff hb
    rw [nbytes_bind node n hn,
      kvPos_some node n n off hn (Nat.le_refl n) hoff (by omega)]
    have he : HEADER + 8 * n + 2 * n + off = HEADER + 10 * n + off := by omega
    rw [he]
  · intro h0
    subst h0
    rw [nbytes_bind node 0 hn,
      kvPos_some node 0 0 0 hn (Nat.le_refl 0) (getOffset_zero node) (by
        simp only [HEADER]
        omega)]
    have he : HEADER + 8 * 0 + 2 * 0 + 0 = HEADER := by omega
    rw [he]

/-- Claim C4: for every node and index `i ≤ nkeys`, `kvPos i` equals header
size + pointer-array size + offset-array size + `offset(i)`; the index
`nkeys` itself is valid; `kvPos` faults for `i > nkeys`. -/
theorem C4_kvPos_spec (node : BNode) (n : Nat) (hn : node.nkeys = some n) :
    (∀ i off, i ≤ n → node.getOffset i = some off →
      HEADER + 8 * n + 2 * n + off < 65536 →
      node.kvPos i = some (HEADER + 8 * n + 2 * n + off)) ∧
    (∀ off, node.getOffset n = some off → HEADER + 8 * n + 2 * n + off < 65536 →
      node.kvPos n = some (HEADER + 8 * n + 2 * n + off)) ∧
    (∀ i, n < i → node.kvPos i = none) :=
  ⟨fun i off hi hoff hb => kvPos_some node n i off hn hi hoff hb,
   fun off hoff hb => kvPos_some node n n off hn (Nat.le_refl n) hoff hb,
   fun i hi => kvPos_oob node n i hn hi⟩

/-- Claim C5: for `i < nkeys`, `getKey i` returns exactly the `klen` bytes
starting 4 bytes past `kvPos i`, and `getVal i` returns exactly the `vlen`
bytes immediately following the key, where `klen` and `vlen` are the 16-bit
little-endian fields stored at `kvPos i` and `kvPos i + 2`; both fault when
`i ≥ nkeys`. -/
theorem C5_record_access (node : BNode) (n : Nat) (hn : node.nkeys = some n) :
    (∀ i, n ≤ i → node.getKey i = none ∧ node.getVal i = none) ∧
    (∀ i pos klen vlen, i < n → node.kvPos i = some pos →
      readLE 2 node.data pos = some klen →
      readLE 2 node.data ((pos + 2) % 65536) = some vlen →
      pos + 4 + klen + vlen < 65536 → pos + 4 + klen + vlen ≤ node.data.length →
      node.getKey i = some ((node.data.drop (pos + 4)).take klen) ∧
      node.getVal i = some ((node.data.drop (pos + 4 + klen)).take vlen)) :=
  ⟨fun i hi => ⟨getKey_oob node n i hn hi, getVal_oob node n i hn hi⟩,
   fun i pos klen vlen hi hpos hk hv hb hl =>
     ⟨getKey_some node n i pos klen hn hi hpos hk (by omega) (by omega),
      getVal_some node n i pos klen vlen hn hi hpos hk hv hb hl⟩⟩

/-- Claim C6: `getPtr i` and `setPtr i v` fault (assertion) exactly when
`i ≥ nkeys`; for `i < nkeys` on a buffer large enough the assertion cannot
fire and each operation touches only the 8 bytes at `HEADER + 8*i`, which lie
inside the buffer. -/
theorem C6_ptr_bounds (node : BNode) (n : Nat) (hn : node.nkeys = some n) :
    (∀ i, n ≤ i → node.getPtr i = none ∧ ∀ v, node.setPtr i v = none) ∧
    (∀ i v, i < n → HEADER + 8 * i + 8 ≤ 65536 →
      HEADER + 8 * i + 8 ≤ node.data.length →
      node.getPtr i = some (leVal ((node.data.drop (HEADER + 8 * i)).take 8)) ∧
      node.setPtr i v = some ⟨node.data.take (HEADER + 8 * i) ++ leBytes 8 v ++
        node.data.drop (HEADER + 8 * i + 8)⟩) :=
  ⟨fun i hi => ⟨getPtr_none node n i hn hi, fun v => setPtr_none node n i v hn hi⟩,
   fun i v hi hb65 hblen =>
     ⟨getPtr_some node n i hn hi hb65 hblen,
      setPtr_some node n i v hn hi hb65 hblen⟩⟩

/-- Claim C7: `getOffset 0` returns 0 for every node (sentinel, no stored
byte is read, even on an empty buffer); for `1 ≤ i ≤ nkeys`, `getOffset i`
returns the 16-bit little-endian value stored at `HEADER + 8*nkeys + 2*(i-1)`. -/
theorem C7_offset_spec (node : BNode) (n : Nat) (hn : node.nkeys = some n) :
    (∀ m : BNode, m.getOffset 0 = some 0) ∧
    (∀ i, 1 ≤ i → i ≤ n → HEADER + 8 * n + 2 * (i - 1) + 2 ≤ 65536 →
      HEADER + 8 * n + 2 * (i - 1) + 2 ≤ node.data.length →
      node.getOffset i = some (node.data.getD (HEADER + 8 * n + 2 * (i - 1)) 0 +
        256 * node.data.getD (HEADER + 8 * n + 2 * (i - 1) + 1) 0)) :=
  ⟨getOffset_zero, fun i h1 h2 hb hl => getOffset_pos node n i hn h1 h2 hb hl⟩

/-- Claim C8: a tree value consists of exactly a root page pointer plus the
three injected page-lifecycle callbacks `get`, `new`, `del`, and carries no
other state: `BTree` is in bijection with the product of those four
components. -/
theorem C8_tree_parts :
    (∀ tr : BTree, BTree.ofParts (BTree.toParts tr) = tr) ∧
    (∀ p : Nat × (Nat → BNode) × (BNode → Nat) × (Nat → Unit),
      BTree.toParts (BTree.ofParts p) = p) :=
  ⟨fun _ => rfl, fun _ => rfl⟩

/-- Claim C9: a node holding a single entry of maximum size fits in one page:
`4 (header) + 8 (one pointer) + 2 (one offset) + 4 (length fields) + 1000 +
3000 = 4018 ≤ 4096`, checked both arithmetically on the declared limits and
on the concrete encoded node. -/
theorem C9_single_max_entry_fits :
    HEADER + 8 + 2 + (2 + 2 + BTREE_MAX_KEY_SIZE + BTREE_MAX_VAL_SIZE) = 4018 ∧
    4018 ≤ BTREE_PAGE_SIZE ∧
    (buildNode BNODE_LEAF [0]
        [(List.replicate BTREE_MAX_KEY_SIZE 97, List.replicate BTREE_MAX_VAL_SIZE 98)]).bind
      BNode.nbytes = some 4018 := by
  refine ⟨by decide, by decide, ?_⟩
  have hsz : HEADER + 10 * ([(List.replicate BTREE_MAX_KEY_SIZE (97:Nat),
        List.replicate BTREE_MAX_VAL_SIZE (98:Nat))] : List Entry).length +
      offUpTo [(List.replicate BTREE_MAX_KEY_SIZE 97, List.replicate BTREE_MAX_VAL_SIZE 98)]
        ([(List.replicate BTREE_MAX_KEY_SIZE (97:Nat),
          List.replicate BTREE_MAX_VAL_SIZE (98:Nat))] : List Entry).length ≤
      BTREE_PAGE_SIZE := by
    simp only [List.length_cons, List.length_nil, offUpTo, recSize, List.length_replicate]
    simp only [HEADER, BTREE_PAGE_SIZE, BTREE_MAX_KEY_SIZE, BTREE_MAX_VAL_SIZE]
    omega
  have hb := buildNode_eq BNODE_LEAF [0]
    [(List.replicate BTREE_MAX_KEY_SIZE 97, List.replicate BTREE_MAX_VAL_SIZE 98)]
    (by simp) hsz
  rw [hb]
  simp only [Option.bind_eq_bind, Option.some_bind]
  have hn1 : BNode.nkeys ⟨nodeBytes BNODE_LEAF [0]
      [(List.replicate BTREE_MAX_KEY_SIZE 97, List.replicate BTREE_MAX_VAL_SIZE 98)] ++
      List.replicate (BTREE_PAGE_SIZE - (HEADER + 10 * ([(List.replicate BTREE_MAX_KEY_SIZE (97:Nat),
        List.replicate BTREE_MAX_VAL_SIZE (98:Nat))] : List Entry).length +
        offUpTo [(List.replicate BTREE_MAX_KEY_SIZE 97, List.replicate BTREE_MAX_VAL_SIZE 98)]
          ([(List.replicate BTREE_MAX_KEY_SIZE (97:Nat),
            List.replicate BTREE_MAX_VAL_SIZE (98:Nat))] : List Entry).length)) 0⟩ =
      some 1 := by
    rw [nkeys_nodeBytes]
    simp only [List.length_cons, List.length_nil]
  rw [nbytes_bind _ 1 hn1,
    kvPos_nodeBytes BNODE_LEAF [0] _ _ (by simp only [List.length_cons, List.length_nil])
      hsz 1 (by simp only [List.length_cons, List.length_nil]; omega)]
  simp only [List.length_cons, List.length_nil, offUpTo, recSize, List.length_replicate]
  simp only [HEADER, BTREE_MAX_KEY_SIZE, BTREE_MAX_VAL_SIZE]

/-- Claim C10: the codec setters modify only the bytes they name: `setHeader`
writes exactly bytes 0-3 (the two little-endian header fields) and `setPtr i`
writes exactly the 8 bytes at `HEADER + 8*i`; every other byte of the buffer
is left unchanged. -/
theorem C10_setter_frame (node : BNode) :
    (∀ t k, 4 ≤ node.data.length →
      ∃ node2, node.setHeader t k = some node2 ∧
        node2.data.length = node.data.length ∧
        node2.data.take 4 = leBytes 2 t ++ leBytes 2 k ∧
        (∀ j, 4 ≤ j → node2.data.getD j 0 = node.data.getD j 0)) ∧
    (∀ n i v, node.nkeys = some n → i < n →
      HEADER + 8 * i + 8 ≤ 65536 → HEADER + 8 * i + 8 ≤ node.data.length →
      ∃ node2, node.setPtr i v = some node2 ∧
        node2.data.length = node.data.length ∧
        (node2.data.drop (HEADER + 8 * i)).take 8 = leBytes 8 v ∧
        (∀ j, j < HEADER + 8 * i ∨ HEADER + 8 * i + 8 ≤ j →
          node2.data.getD j 0 = node.data.getD j 0)) := by
  constructor
  · intro t k h4
    have hsn : node.setHeader t k =
        some ⟨leBytes 2 t ++ leBytes 2 k ++ node.data.drop 4⟩ := by
      obtain ⟨d⟩ := node
      exact setHeader_eq d t k h4
    refine ⟨_, hsn, ?_, ?_, ?_⟩
    · simp [List.length_append, length_leBytes, List.length_drop]
      omega
    · have hl4 : (leBytes 2 t ++ leBytes 2 k).length = 4 := by
        simp [List.length_append, length_leBytes]
      exact List.take_left' hl4
    · intro j hj
      exact getD_setHeader node.data t k j hj
  · intro n i v hn hi hb65 hblen
    refine ⟨_, setPtr_some node n i v hn hi hb65 hblen, ?_, ?_, ?_⟩
    · simp [List.length_append, length_leBytes, List.length_drop, List.length_take]
      omega
    · have hlt : (node.data.take (HEADER + 8 * i)).length = HEADER + 8 * i := by
        rw [List.length_take]; omega
      show ((node.data.take (HEADER + 8 * i) ++ leBytes 8 v ++
        node.data.drop (HEADER + 8 * i + 8)).drop (HEADER + 8 * i)).take 8 = leBytes 8 v
      rw [List.append_assoc, List.drop_left' hlt, List.take_left' (length_leBytes 8 v)]
    · intro j hj
      exact getD_setPtr node.data (HEADER + 8 * i) v j (by omega) hj

/-- Witness for C1: the round-trip at a concrete leaf node with one pointer
and one key-value entry. -/
theorem C1_codec_roundtrip_witness :
    ([7] : List Nat).length = ([(([1, 2] : List Nat), ([3, 4, 5] : List Nat))] : List Entry).length ∧
    (2 : Nat) < 65536 ∧
    (∀ p ∈ ([7] : List Nat), p < 256 ^ 8) ∧
    HEADER + 10 * ([(([1, 2] : List Nat), ([3, 4, 5] : List Nat))] : List Entry).length +
      offUpTo [([1, 2], [3, 4, 5])]
        ([(([1, 2] : List Nat), ([3, 4, 5] : List Nat))] : List Entry).length ≤
      BTREE_PAGE_SIZE ∧
    (∃ node : BNode, buildNode 2 [7] [([1, 2], [3, 4, 5])] = some node ∧
      node.btype = some 2 ∧
      node.nkeys = some ([(([1, 2] : List Nat), ([3, 4, 5] : List Nat))] : List Entry).length ∧
      (∀ i, i < ([(([1, 2] : List Nat), ([3, 4, 5] : List Nat))] : List Entry).length →
        node.getPtr i = some (([7] : List Nat).getD i 0)) ∧
      (∀ i, i < ([(([1, 2] : List Nat), ([3, 4, 5] : List Nat))] : List Entry).length →
        node.getKey i = some (entryAt [([1, 2], [3, 4, 5])] i).1 ∧
        node.getVal i = some (entryAt [([1, 2], [3, 4, 5])] i).2)) :=
  ⟨by decide, by decide, by decide, by decide,
    C1_codec_roundtrip 2 [7] [([1, 2], [3, 4, 5])] (by decide) (by decide)
      (by decide) (by decide)⟩

/-- Witness for C2: the layout read back from a concrete 20-byte leaf node
(type 2, one key-value pair `[10] / [20]`, one zero child pointer). -/
theorem C2_page_layout_witness :
    BNode.nkeys ⟨[2, 0, 1, 0, 0, 0, 0, 0, 0, 0, 0, 0, 6, 0, 1, 0, 1, 0, 10, 20]⟩ = some 1 ∧
    BNode.btype ⟨[2, 0, 1, 0, 0, 0, 0, 0, 0, 0, 0, 0, 6, 0, 1, 0, 1, 0, 10, 20]⟩ = some 2 ∧
    BNode.getPtr ⟨[2, 0, 1, 0, 0, 0, 0, 0, 0, 0, 0, 0, 6, 0, 1, 0, 1, 0, 10, 20]⟩ 0 = some 0 ∧
    BNode.getOffset ⟨[2, 0, 1, 0, 0, 0, 0, 0, 0, 0, 0, 0, 6, 0, 1, 0, 1, 0, 10, 20]⟩ 1 = some 6 ∧
    BNode.kvPos ⟨[2, 0, 1, 0, 0, 0, 0, 0, 0, 0, 0, 0, 6, 0, 1, 0, 1, 0, 10, 20]⟩ 0 = some 14 ∧
    BNode.getKey ⟨[2, 0, 1, 0, 0, 0, 0, 0, 0, 0, 0, 0, 6, 0, 1, 0, 1, 0, 10, 20]⟩ 0 = some [10] ∧
    BNode.getVal ⟨[2, 0, 1, 0, 0, 0, 0, 0, 0, 0, 0, 0, 6, 0, 1, 0, 1, 0, 10, 20]⟩ 0 = some [20] := by
  have h := C2_page_layout ⟨[2, 0, 1, 0, 0, 0, 0, 0, 0, 0, 0, 0, 6, 0, 1, 0, 1, 0, 10, 20]⟩ 1
    (by decide)
  refine ⟨by decide, ?_, ?_, ?_, ?_, ?_, ?_⟩
  · exact (h.1 (by decide)).trans (by decide)
  · exact (h.2.2.1 0 (by decide) (by decide) (by decide)).trans (by decide)
  · exact (h.2.2.2.1 1 (by decide) (by decide) (by decide) (by decide)).trans (by decide)
  · exact (h.2.2.2.2.1 (by decide)).trans (by decide)
  · exact ((h.2.2.2.2.2 0 14 (by decide) (by decide) (by decide) (by decide)).1).trans (by decide)
  · exact ((h.2.2.2.2.2 0 14 (by decide) (by decide) (by decide) (by decide)).2).trans (by decide)

/-- Witness for C3: the size computation on a concrete empty node. -/
theorem C3_nbytes_spec_witness :
    BNode.nkeys ⟨[2, 0, 0, 0]⟩ = some 0 ∧
    (BNode.nbytes ⟨[2, 0, 0, 0]⟩ = BNode.kvPos ⟨[2, 0, 0, 0]⟩ 0 ∧
      (∀ off, BNode.getOffset ⟨[2, 0, 0, 0]⟩ 0 = some off →
        HEADER + 10 * 0 + off < 65536 →
        BNode.nbytes ⟨[2, 0, 0, 0]⟩ = some (HEADER + 10 * 0 + off)) ∧
      (0 = 0 → BNode.nbytes ⟨[2, 0, 0, 0]⟩ = some HEADER)) :=
  ⟨by decide, C3_nbytes_spec ⟨[2, 0, 0, 0]⟩ 0 (by decide)⟩

/-- Witness for C4: `kvPos` at the key count and past it, on the concrete
20-byte leaf node. -/
theorem C4_kvPos_spec_witness :
    BNode.nkeys ⟨[2, 0, 1, 0, 0, 0, 0, 0, 0, 0, 0, 0, 6, 0, 1, 0, 1, 0, 10, 20]⟩ = some 1 ∧
    BNode.kvPos ⟨[2, 0, 1, 0, 0, 0, 0, 0, 0, 0, 0, 0, 6, 0, 1, 0, 1, 0, 10, 20]⟩ 1 = some 20 ∧
    BNode.kvPos ⟨[2, 0, 1, 0, 0, 0, 0, 0, 0, 0, 0, 0, 6, 0, 1, 0, 1, 0, 10, 20]⟩ 2 = none := by
  have h := C4_kvPos_spec ⟨[2, 0, 1, 0, 0, 0, 0, 0, 0, 0, 0, 0, 6, 0, 1, 0, 1, 0, 10, 20]⟩ 1
    (by decide)
  exact ⟨by decide, (h.2.1 6 (by decide) (by decide)).trans (by decide), h.2.2 2 (by decide)⟩

/-- Witness for C5: key/value extraction and out-of-range faulting on the
concrete 20-byte leaf node. -/
theorem C5_record_access_witness :
    BNode.nkeys ⟨[2, 0, 1, 0, 0, 0, 0, 0, 0, 0, 0, 0, 6, 0, 1, 0, 1, 0, 10, 20]⟩ = some 1 ∧
    (BNode.getKey ⟨[2, 0, 1, 0, 0, 0, 0, 0, 0, 0, 0, 0, 6, 0, 1, 0, 1, 0, 10, 20]⟩ 1 = none ∧
      BNode.getVal ⟨[2, 0, 1, 0, 0, 0, 0, 0, 0, 0, 0, 0, 6, 0, 1, 0, 1, 0, 10, 20]⟩ 1 = none) ∧
    BNode.getKey ⟨[2, 0, 1, 0, 0, 0, 0, 0, 0, 0, 0, 0, 6, 0, 1, 0, 1, 0, 10, 20]⟩ 0 = some [10] ∧
    BNode.getVal ⟨[2, 0, 1, 0, 0, 0, 0, 0, 0, 0, 0, 0, 6, 0, 1, 0, 1, 0, 10, 20]⟩ 0 = some [20] := by
  have h := C5_record_access ⟨[2, 0, 1, 0, 0, 0, 0, 0, 0, 0, 0, 0, 6, 0, 1, 0, 1, 0, 10, 20]⟩ 1
    (by decide)
  have h2 := h.2 0 14 1 1 (by decide) (by decide) (by decide) (by decide) (by decide) (by decide)
  exact ⟨by decide, h.1 1 (by decide), h2.1.trans (by decide), h2.2.trans (by decide)⟩

/-- Witness for C6: pointer access and update on the concrete 20-byte leaf
node, including the out-of-range faults. -/
theorem C6_ptr_bounds_witness :
    BNode.nkeys ⟨[2, 0, 1, 0, 0, 0, 0, 0, 0, 0, 0, 0, 6, 0, 1, 0, 1, 0, 10, 20]⟩ = some 1 ∧
    (BNode.getPtr ⟨[2, 0, 1, 0, 0, 0, 0, 0, 0, 0, 0, 0, 6, 0, 1, 0, 1, 0, 10, 20]⟩ 1 = none ∧
      BNode.setPtr ⟨[2, 0, 1, 0, 0, 0, 0, 0, 0, 0, 0, 0, 6, 0, 1, 0, 1, 0, 10, 20]⟩ 1 5 = none) ∧
    BNode.getPtr ⟨[2, 0, 1, 0, 0, 0, 0, 0, 0, 0, 0, 0, 6, 0, 1, 0, 1, 0, 10, 20]⟩ 0 = some 0 ∧
    BNode.setPtr ⟨[2, 0, 1, 0, 0, 0, 0, 0, 0, 0, 0, 0, 6, 0, 1, 0, 1, 0, 10, 20]⟩ 0 5 =
      some ⟨[2, 0, 1, 0, 5, 0, 0, 0, 0, 0, 0, 0, 6, 0, 1, 0, 1, 0, 10, 20]⟩ := by
  have h := C6_ptr_bounds ⟨[2, 0, 1, 0, 0, 0, 0, 0, 0, 0, 0, 0, 6, 0, 1, 0, 1, 0, 10, 20]⟩ 1
    (by decide)
  have h1 := h.1 1 (by decide)
  have h2 := h.2 0 5 (by decide) (by decide) (by decide)
  exact ⟨by decide, ⟨h1.1, h1.2 5⟩, h2.1.trans (by decide), h2.2.trans (by decide)⟩

/-- Witness for C7: the offset sentinel on the empty buffer and the stored
offset on the concrete 20-byte leaf node. -/
theorem C7_offset_spec_witness :
    BNode.nkeys ⟨[2, 0, 1, 0, 0, 0, 0, 0, 0, 0, 0, 0, 6, 0, 1, 0, 1, 0, 10, 20]⟩ = some 1 ∧
    BNode.getOffset (⟨[]⟩ : BNode) 0 = some 0 ∧
    BNode.getOffset ⟨[2, 0, 1, 0, 0, 0, 0, 0, 0, 0, 0, 0, 6, 0, 1, 0, 1, 0, 10, 20]⟩ 1 = some 6 := by
  have h := C7_offset_spec ⟨[2, 0, 1, 0, 0, 0, 0, 0, 0, 0, 0, 0, 6, 0, 1, 0, 1, 0, 10, 20]⟩ 1
    (by decide)
  exact ⟨by decide, h.1 ⟨[]⟩,
    (h.2 1 (by decide) (by decide) (by decide) (by decide)).trans (by decide)⟩

/-- Witness for C10: the setter frame conditions at concrete nodes. -/
theorem C10_setter_frame_witness :
    (4 ≤ (⟨[9, 9, 9, 9, 7]⟩ : BNode).data.length) ∧
    (∃ node2, BNode.setHeader ⟨[9, 9, 9, 9, 7]⟩ 2 1 = some node2 ∧
      node2.data.length = (⟨[9, 9, 9, 9, 7]⟩ : BNode).data.length ∧
      node2.data.take 4 = leBytes 2 2 ++ leBytes 2 1 ∧
      (∀ j, 4 ≤ j → node2.data.getD j 0 = (⟨[9, 9, 9, 9, 7]⟩ : BNode).data.getD j 0)) ∧
    (∃ node2, BNode.setPtr ⟨[1, 0, 1, 0, 0, 0, 0, 0, 0, 0, 0, 0]⟩ 0 77 = some node2 ∧
      node2.data.length = (⟨[1, 0, 1, 0, 0, 0, 0, 0, 0, 0, 0, 0]⟩ : BNode).data.length ∧
      (node2.data.drop (HEADER + 8 * 0)).take 8 = leBytes 8 77 ∧
      (∀ j, j < HEADER + 8 * 0 ∨ HEADER + 8 * 0 + 8 ≤ j →
        node2.data.getD j 0 = (⟨[1, 0, 1, 0, 0, 0, 0, 0, 0, 0, 0, 0]⟩ : BNode).data.getD j 0)) :=
  ⟨by decide,
   (C10_setter_frame ⟨[9, 9, 9, 9, 7]⟩).1 2 1 (by decide),
   (C10_setter_frame ⟨[1, 0, 1, 0, 0, 0, 0, 0, 0, 0, 0, 0]⟩).2 1 0 77 (by decide) (by decide)
     (by decide) (by decide)⟩

end Scratch
